import Mathlib

/-!
Verification development for the `ncups` printer-management library
(`src/lib/manager.js`).  The definitions below are a shallow embedding of
the JavaScript source: strings are Lean `String`s, JavaScript exceptions
are modelled with `Except JsError`, JavaScript `undefined` values that can
flow into results are modelled with `Option`, and the outcome of the
external command executor (`child-process-promise`'s `exec`) is an explicit
`ExecOutcome` input.  Regular expressions from the source are embedded as
executable functions on character lists that follow the JavaScript regex
semantics (leftmost match, greedy/lazy quantifiers, `m` multiline flag,
`.` not matching line terminators) on the patterns actually used.
-/

/-- Errors a JavaScript run can raise in the modelled code paths:
`uriError` for `decodeURIComponent` failures, `typeError` for calling a
method on `undefined`, `execError` for a rejected `exec` promise. -/
inductive JsError where
  | uriError
  | typeError
  | execError
deriving DecidableEq, Repr

deriving instance DecidableEq for Except

/-! ## JavaScript string primitives -/

/-- JavaScript `String.prototype.split` with a single-character separator:
keeps empty segments, result is never empty. -/
def splitCharList (c : Char) : List Char → List (List Char)
  | [] => [[]]
  | x :: xs =>
    if x = c then [] :: splitCharList c xs
    else
      match splitCharList c xs with
      | h :: t => (x :: h) :: t
      | [] => [[x]]

def jsSplitChar (c : Char) (s : String) : List String :=
  (splitCharList c s.data).map String.mk

/-- JavaScript `Array.prototype.join(sep)`. -/
def jsJoin (sep : String) : List String → String
  | [] => ""
  | [x] => x
  | x :: y :: t => x ++ sep ++ jsJoin sep (y :: t)

/-- Whitespace stripped by JavaScript `String.prototype.trim` (and
lodash `_.trim` with default chars). -/
def isJsSpace (c : Char) : Bool :=
  c ∈ ['\t', '\n', '\x0b', '\x0c', '\r', ' ', '\u0085', ' ', ' ',
    ' ', ' ', ' ', ' ', ' ', ' ', ' ',
    ' ', ' ', ' ', ' ', ' ', ' ', ' ',
    ' ', '　', '﻿']

def jsTrim (s : String) : String :=
  String.mk (((s.data.dropWhile isJsSpace).reverse.dropWhile isJsSpace).reverse)

/-- `s.substring(s.lastIndexOf(' ') + 1)`: the suffix after the last space
character (the whole string when there is no space). -/
def suffixAfterLastSpace (s : String) : String :=
  String.mk ((s.data.reverse.takeWhile (fun c => ¬ (c = ' '))).reverse)

def jsToLower (s : String) : String :=
  String.mk (s.data.map Char.toLower)

/-- The split regex `/\r\n|[\n\r\u0085  ]/g` used by `_list` and
`discover` to cut stdout into lines: `\r\n` counts as one separator,
otherwise each listed character separates. -/
def splitLinesList : List Char → List (List Char)
  | [] => [[]]
  | '\r' :: '\n' :: rest => [] :: splitLinesList rest
  | c :: rest =>
    if c ∈ ['\n', '\r', '\u0085', ' ', ' '] then
      [] :: splitLinesList rest
    else
      match splitLinesList rest with
      | h :: t => (c :: h) :: t
      | [] => [[c]]

def splitLinesJs (s : String) : List String :=
  (splitLinesList s.data).map String.mk

/-! ## decodeURIComponent -/

def hexVal (c : Char) : Option Nat :=
  if '0' ≤ c ∧ c ≤ '9' then some (c.toNat - 48)
  else if 'a' ≤ c ∧ c ≤ 'f' then some (c.toNat - 87)
  else if 'A' ≤ c ∧ c ≤ 'F' then some (c.toNat - 55)
  else none

def hex2 (h1 h2 : Char) : Option Nat := do
  let a ← hexVal h1
  let b ← hexVal h2
  pure (16 * a + b)

/-- A percent-encoded UTF-8 continuation byte value (`0x80`–`0xBF`),
reduced to its 6 payload bits. -/
def contVal (h1 h2 : Char) : Option Nat := do
  let v ← hex2 h1 h2
  if 0x80 ≤ v ∧ v ≤ 0xBF then pure (v - 0x80) else none

/-- JavaScript `decodeURIComponent`: percent-escapes are decoded as strict
UTF-8 byte sequences; any malformed escape (missing hex digits, bad lead
byte, bad continuation, surrogate or out-of-range code point) raises
`URIError`, modelled as `none`.  Characters other than `%` pass through. -/
def decodeList : List Char → Option (List Char)
  | [] => some []
  | '%' :: h1 :: h2 :: t =>
    match hex2 h1 h2 with
    | none => none
    | some b =>
      if b < 0x80 then
        (decodeList t).map (Char.ofNat b :: ·)
      else if 0xC2 ≤ b ∧ b ≤ 0xDF then
        match t with
        | '%' :: h3 :: h4 :: t2 =>
          match contVal h3 h4 with
          | none => none
          | some c1 => (decodeList t2).map (Char.ofNat ((b - 0xC0) * 64 + c1) :: ·)
        | _ => none
      else if 0xE0 ≤ b ∧ b ≤ 0xEF then
        match t with
        | '%' :: h3 :: h4 :: '%' :: h5 :: h6 :: t3 =>
          match contVal h3 h4, contVal h5 h6 with
          | some c1, some c2 =>
            let cp := (b - 0xE0) * 4096 + c1 * 64 + c2
            if cp < 0x800 ∨ (0xD800 ≤ cp ∧ cp ≤ 0xDFFF) then none
            else (decodeList t3).map (Char.ofNat cp :: ·)
          | _, _ => none
        | _ => none
      else if 0xF0 ≤ b ∧ b ≤ 0xF4 then
        match t with
        | '%' :: h3 :: h4 :: '%' :: h5 :: h6 :: '%' :: h7 :: h8 :: t4 =>
          match contVal h3 h4, contVal h5 h6, contVal h7 h8 with
          | some c1, some c2, some c3 =>
            let cp := (b - 0xF0) * 262144 + c1 * 4096 + c2 * 64 + c3
            if cp < 0x10000 ∨ 0x10FFFF < cp then none
            else (decodeList t4).map (Char.ofNat cp :: ·)
          | _, _, _ => none
        | _ => none
      else none
  | '%' :: _ => none
  | c :: t => (decodeList t).map (c :: ·)

def decodeURIComponentJs (s : String) : Option String :=
  (decodeList s.data).map String.mk

/-! ## The three regular expressions of `discover` -/

/-- Line-terminator characters for JavaScript regexes: `.` never matches
them and the `m` flag anchors `^` right after each of them. -/
def isLT (c : Char) : Bool := c ∈ ['\n', '\r', ' ', ' ']

/-- Split on every single line-terminator character (segment starts are
exactly the positions where a multiline `^` can anchor). -/
def splitOnPred (p : Char → Bool) : List Char → List (List Char)
  | [] => [[]]
  | x :: xs =>
    if p x then [] :: splitOnPred p xs
    else
      match splitOnPred p xs with
      | h :: t => (x :: h) :: t
      | [] => [[x]]

/-- Does the list begin with the three characters `://`? -/
def startsCSS : List Char → Bool
  | c1 :: c2 :: c3 :: _ => c1 = ':' && c2 = '/' && c3 = '/'
  | _ => false

/-- Index of the last occurrence of `://` in the list (`none` when the
list contains no `://`). -/
def lastCSS : List Char → Option Nat
  | [] => none
  | c :: rest =>
    match lastCSS rest with
    | some i => some (i + 1)
    | none => if startsCSS (c :: rest) then some 0 else none

def isAsciiLetter (c : Char) : Bool :=
  ('a' ≤ c ∧ c ≤ 'z') ∨ ('A' ≤ c ∧ c ≤ 'Z')

/-- One attempt of `/(^([a-zA-Z].*):\/\/)/gmi` at a line start: the first
character must be a letter and, by greediness of `.*`, group 2 extends to
the last `://` of the segment (needing at least one character before it). -/
def segSchemeMatch (seg : List Char) : Option (List Char) :=
  match seg with
  | [] => none
  | c :: _ =>
    if isAsciiLetter c then
      match lastCSS seg with
      | some i => if 0 < i then some (seg.take i) else none
      | none => none
    else none

/-- `rx_type.exec(s)`'s capture group 2 for
`/(^([a-zA-Z].*):\/\/)/gmi`: the scheme-like text before the `://`.
With the `m` flag `^` anchors at the start of every line, so the first
line segment that matches wins. -/
def rxTypeExec (s : String) : Option String :=
  ((splitOnPred isLT s.data).findSome? segSchemeMatch).map String.mk

/-- Characters (lazily, fewest possible) before the first `._` of the
list; `none` when no `._` occurs. -/
def firstDotUnderscore : List Char → Option (List Char)
  | '.' :: '_' :: _ => some []
  | c :: rest => (firstDotUnderscore rest).map (c :: ·)
  | [] => none

/-- One attempt of the tail of `/\/\/(.*?)\._/gmi` just after a `//`: the
lazy group 1 runs to the first `._` within the current line (`.` cannot
cross a line terminator). -/
def netHere (l : List Char) : Option (List Char) :=
  firstDotUnderscore (l.takeWhile (fun c => ¬ isLT c))

/-- `rx_network.exec(s)`'s capture group 1 for `/\/\/(.*?)\._/gmi`,
scanning start positions left to right. -/
def rxNetAux : List Char → Option (List Char)
  | [] => none
  | c :: rest =>
    match c, rest with
    | '/', '/' :: rest2 =>
      match netHere rest2 with
      | some g => some g
      | none => rxNetAux rest
    | _, _ => rxNetAux rest

def rxNetExec (s : String) : Option String :=
  (rxNetAux s.data).map String.mk

def lastIdxOfChar (c : Char) : List Char → Option Nat
  | [] => none
  | x :: rest =>
    match lastIdxOfChar c rest with
    | some i => some (i + 1)
    | none => if x = c then some 0 else none

/-- One attempt of the tail of `/(usb:\/\/)(.*)(\/)(.*)(\?)(.*)/gmi` just
after a `usb://`: by greediness, group 2 ends at the last `/` that still
has a `?` after it on the same line, group 4 ends at the last `?`. -/
def usbHere (l : List Char) : Option (List Char × List Char) :=
  let line := l.takeWhile (fun c => ¬ isLT c)
  match lastIdxOfChar '?' line with
  | none => none
  | some j =>
    match lastIdxOfChar '/' (line.take j) with
    | none => none
    | some i => some (line.take i, (line.drop (i + 1)).take (j - (i + 1)))

/-- Case-insensitive "starts with" on character lists (the `i` flag). -/
def startsWithCI : List Char → List Char → Bool
  | [], _ => true
  | _ :: _, [] => false
  | p :: ps, c :: cs => p.toLower = c.toLower && startsWithCI ps cs

/-- `rx_usb.exec(s)`'s capture groups 2 and 4 for
`/(usb:\/\/)(.*)(\/)(.*)(\?)(.*)/gmi`. -/
def rxUsbAux : List Char → Option (List Char × List Char)
  | [] => none
  | c :: rest =>
    if startsWithCI "usb://".data (c :: rest) then
      match usbHere ((c :: rest).drop 6) with
      | some p => some p
      | none => rxUsbAux rest
    else rxUsbAux rest

def rxUsbExec (s : String) : Option (String × String) :=
  (rxUsbAux s.data).map (fun p => (String.mk p.1, String.mk p.2))

/-! ## Data model -/

/-- Modelled from the spec: the `InstallablePrinter` class
(`src/lib/installable.js`, required by `manager.js` but not present under
`src/`) is, per spec §3 "InstallableDevice", a record of the constructor
params `{uri, uri_pretty, protocol, model}`.  `uri` is `Option String`
because `manager.js` passes `parts[1]`, which is `undefined` for a
one-token discovery line. -/
structure InstallablePrinter where
  uri : Option String
  uri_pretty : String
  protocol : String
  model : String
deriving DecidableEq, Repr

/-- A parsed installed-printer status line (`_list`'s element shape
`{name, connection, isDefault}`). -/
structure PrinterRecord where
  name : String
  connection : String
  isDefault : Bool
deriving DecidableEq, Repr

/-- Modelled from the spec: the `Printer` class (`src/lib/printer.js`, not
present under `src/`) per spec §4.7 only hydrates the parsed record. -/
structure Printer where
  info : PrinterRecord
deriving DecidableEq, Repr

/-- One record of the driver catalog (`findDrivers`'s element shape). -/
structure DriverRecord where
  driver : String
  lang : String
  makeAndModel : String
  id : String
deriving DecidableEq, Repr

/-- Outcome of one external command invocation: the promise either
rejects (command could not run / nonzero exit) or resolves with decoded
stdout/stderr text. -/
inductive ExecOutcome where
  | rejected
  | resolved (stdout stderr : String)
deriving DecidableEq, Repr

/-! ## Except-monad helpers (explicit, to mirror statement-by-statement
evaluation order of the JavaScript) -/

def mapExcept (f : α → Except ε β) : List α → Except ε (List β)
  | [] => .ok []
  | x :: xs =>
    match f x with
    | .error e => .error e
    | .ok y =>
      match mapExcept f xs with
      | .error e => .error e
      | .ok ys => .ok (y :: ys)

def foldExcept (f : σ → α → Except ε σ) : σ → List α → Except ε σ
  | s, [] => .ok s
  | s, x :: xs =>
    match f s x with
    | .error e => .error e
    | .ok s2 => foldExcept f s2 xs

/-! ## Printer Listing Reader (`Manager._list`, `list`, `get`) -/

/-- `line.split(/:(.+)?/)`'s entry 1: splits at the first `:`; the
capture is the (non-empty) remainder of the line, or JS `undefined`
(here `none`) when the colon is missing or final.  Status lines contain
no regex line terminators, so the greedy `(.+)` runs to the end. -/
def firstColonSplitList : List Char → Option (List Char × List Char)
  | [] => none
  | ':' :: rest => if rest = [] then none else some ([], rest)
  | c :: rest => (firstColonSplitList rest).map (fun p => (c :: p.1, p.2))

def firstColonSplit (s : String) : Option (String × String) :=
  (firstColonSplitList s.data).map (fun p => (String.mk p.1, String.mk p.2))

/-- One non-first status line of `lpstat -s` output
(`manager.js` lines 44–49).  A line whose split yields no second part
makes `parts[1].trim()` throw a `TypeError`. -/
def parseLine (defaults : String) (line : String) : Except JsError PrinterRecord :=
  match firstColonSplit line with
  | none => .error .typeError
  | some (left, right) =>
    let name := jsTrim (suffixAfterLastSpace left)
    .ok { name := name, connection := jsTrim right, isDefault := defaults == name }

/-- The parsing part of `Manager._list` (`manager.js` lines 38–49): split
stdout into lines, drop empties, read the default-printer name from the
first line (lodash `_.trim(undefined)` is `""`), parse the rest.  With no
line at all, `lines.splice(0,1)[0].split` throws a `TypeError`. -/
def parseListing (out : String) : Except JsError (List PrinterRecord) :=
  match (splitLinesJs out).filter (fun l => l ≠ "") with
  | [] => .error .typeError
  | first :: rest =>
    let defaults := jsTrim ((jsSplitChar ':' first)[1]?.getD "")
    mapExcept (parseLine defaults) rest

/-- `Manager._list` (`manager.js` lines 28–50): a rejected `exec` promise
propagates; a resolved one with non-empty stderr or empty stdout yields
`[]`; otherwise the stdout text is parsed. -/
def listRaw : ExecOutcome → Except JsError (List PrinterRecord)
  | .rejected => .error .execError
  | .resolved out err =>
    if err ≠ "" ∨ out = "" then .ok [] else parseListing out

/-- `Manager.list` (`manager.js` lines 66–69): hydrate each record. -/
def listModel (o : ExecOutcome) : Except JsError (List Printer) :=
  match listRaw o with
  | .error e => .error e
  | .ok items => .ok (items.map Printer.mk)

/-- `Manager.get` (`manager.js` lines 57–61): first record matching the
lower-cased name, or the default record when no name is given. -/
def getModel (o : ExecOutcome) (name? : Option String) : Except JsError (Option Printer) :=
  match listRaw o with
  | .error e => .error e
  | .ok items =>
    .ok ((items.find? (fun it =>
      match name? with
      | some n => jsToLower it.name == jsToLower n
      | none => it.isDefault)).map Printer.mk)

/-! ## URI Classifier and Device Discovery Aggregator (`Manager.discover`) -/

def IGNORED_DEVICES : List String :=
  ["http", "https", "ipp", "ipps", "lpd", "smb", "socket", "fax",
   "canonoipnets2", "cnips2", "epsonfax", "hpfax"]

/-- The classification body of `discover` (`manager.js` lines 139–179)
applied to `parts[1]` (JS `undefined` modelled as `none`, which
`decodeURIComponent` coerces to the string `"undefined"`).  Only the
percent-decoding step can raise. -/
def classifyUri (type? : Option String) : Except JsError InstallablePrinter :=
  match decodeURIComponentJs (type?.getD "undefined") with
  | none => .error .uriError
  | some uriDecoded =>
    let connectionType :=
      match rxTypeExec uriDecoded with
      | some g => if g = "" then "" else g
      | none => ""
    let model :=
      if connectionType = "usb" then
        match rxUsbExec uriDecoded with
        | some (g2, g4) => if g2 ≠ "" ∧ g4 ≠ "" then g2 ++ " " ++ g4 else "unknown"
        | none => "unknown"
      else
        match rxNetExec uriDecoded with
        | some g1 => if g1 ≠ "" then g1 else "unknown"
        | none => "unknown"
    .ok { uri := type?, uri_pretty := uriDecoded, protocol := connectionType, model := model }

/-- `answer[protocol].push(device)` with creation of the key on first
use; JS object insertion order is modelled as an association list (the
protocol keys produced here are non-numeric strings). -/
def pushUnder : List (String × List InstallablePrinter) → String → InstallablePrinter →
    List (String × List InstallablePrinter)
  | [], key, dev => [(key, [dev])]
  | (k, ds) :: rest, key, dev =>
    if k = key then (k, ds ++ [dev]) :: rest
    else (k, ds) :: pushUnder rest key dev

def isIgnoredTok (type? : Option String) : Bool :=
  match type? with
  | some t => decide (t ∈ IGNORED_DEVICES)
  | none => false

/-- The `lines.forEach` body of `discover` (`manager.js` lines 126–184):
split the line on spaces, test `parts[1]` against the ignore list
(`includes(undefined)` is `false`), classify and push under `parts[0]`. -/
def processItem (acc : List (String × List InstallablePrinter)) (item : String) :
    Except JsError (List (String × List InstallablePrinter)) :=
  let parts := jsSplitChar ' ' item
  let type? := parts[1]?
  let protocol := parts.headD ""
  if isIgnoredTok type? then .ok acc
  else
    match classifyUri type? with
    | .error e => .error e
    | .ok dev => .ok (pushUnder acc protocol dev)

/-- The trimmed non-blank lines `discover` iterates over
(`manager.js` lines 121–125; the `_.isArray(lines)` guard is vacuous,
`split` always returns an array). -/
def processedLines (stdout : String) : List String :=
  ((splitLinesJs stdout).map jsTrim).filter (fun l => l ≠ "")

/-- `Manager.discover` (`manager.js` lines 75–187) as a function of the
resolved stdout text of `lpinfo -v`. -/
def discoverModel (stdout : String) :
    Except JsError (List (String × List InstallablePrinter)) :=
  foldExcept processItem [] (processedLines stdout)

/-! ## Driver Catalog Reader and Fuzzy Matcher (`Manager.findDrivers`) -/

/-- `l.split('=')[1].trim()` (`manager.js` lines 198–201): `undefined`
when the line has no `=` (then `.trim()` throws); with several `=`, entry
1 is the text between the first and second `=`. -/
def eqField (l : String) : Except JsError String :=
  match (jsSplitChar '=' l)[1]? with
  | none => .error .typeError
  | some v => .ok (jsTrim v)

def parseDriverGroup (a b c d : String) : Except JsError DriverRecord :=
  match eqField a with
  | .error e => .error e
  | .ok driver =>
    match eqField b with
    | .error e => .error e
    | .ok lang =>
      match eqField c with
      | .error e => .error e
      | .ok makeAndModel =>
        match eqField d with
        | .error e => .error e
        | .ok idv => .ok { driver := driver, lang := lang, makeAndModel := makeAndModel, id := idv }

/-- The `while (lines.length > 4)` catalog loop (`manager.js` lines
195–203): groups of four are consumed only while MORE than four lines
remain; whatever is left (up to four lines) is dropped. -/
def parseDriverLines : List String → Except JsError (List DriverRecord)
  | a :: b :: c :: d :: e :: rest =>
    match parseDriverGroup a b c d with
    | .error er => .error er
    | .ok dr =>
      match parseDriverLines (e :: rest) with
      | .error er => .error er
      | .ok ds => .ok (dr :: ds)
  | _ => .ok []

/-- Modelled from the spec: the external `fuzzy` npm library's
`filter(pattern, items, {extract})` (spec §4.6 "fuzzy substring-ranking
match", glossary "approximate substring/subsequence ranking ... tolerant
of missing characters/words") is modelled as the case-insensitive
in-order subsequence filter over `makeAndModel`; its score-based ranking
is abstracted, hits are kept in catalog order. -/
def fuzzySubseq : List Char → List Char → Bool
  | [], _ => true
  | _ :: _, [] => false
  | p :: ps, t :: ts =>
    if p.toLower = t.toLower then fuzzySubseq ps ts
    else fuzzySubseq (p :: ps) ts

def fuzzyFilter (pat : String) (catalog : List DriverRecord) : List DriverRecord :=
  catalog.filter (fun d => fuzzySubseq pat.data d.makeAndModel.data)

/-- The per-slug token-window descent (`manager.js` lines 212–221),
parameterised by the matcher `ff`: try the first `i` tokens joined by
spaces, from all tokens down to one; the first non-empty hit list wins;
`none` models the `undefined` produced when the loop exhausts. -/
def windowDescent (ff : String → List DriverRecord → List DriverRecord)
    (drivers : List DriverRecord) (tokens : List String) : Nat → Option (List DriverRecord)
  | 0 => none
  | i + 1 =>
    let hits := ff (jsJoin " " (tokens.take (i + 1))) drivers
    if hits = [] then windowDescent ff drivers tokens i else some hits

def slugHits (ff : String → List DriverRecord → List DriverRecord)
    (drivers : List DriverRecord) (slug : String) : Option (List DriverRecord) :=
  let tokens := jsSplitChar ' ' slug
  windowDescent ff drivers tokens tokens.length

/-- `_.flatten(items)`: array elements are spliced in, the `undefined`
of a failed slug stays as one element. -/
def flattenJs : List (Option (List DriverRecord)) → List (Option DriverRecord)
  | [] => []
  | none :: rest => none :: flattenJs rest
  | some l :: rest => l.map some ++ flattenJs rest

/-- `_.union(xs)` on one array = lodash `uniq`: keep first occurrences. -/
def jsUniqAux [DecidableEq α] (seen : List α) : List α → List α
  | [] => []
  | x :: xs => if x ∈ seen then jsUniqAux seen xs else x :: jsUniqAux (x :: seen) xs

def jsUniq [DecidableEq α] (l : List α) : List α := jsUniqAux [] l

/-- `Manager.findDrivers` (`manager.js` lines 189–226) as a function of
the resolved stdout of `lpinfo -l -m`, with the external fuzzy matcher
`ff` as a parameter (instantiated with `fuzzyFilter` in concrete
statements).  `slugs? = none` models a falsy `slugs` argument; elements
of the result are `Option DriverRecord` because a failed slug's
`undefined` flows into the returned array. -/
def findDriversModel (ff : String → List DriverRecord → List DriverRecord)
    (stdout : String) (slugs? : Option (List String)) (maxsize : Nat) :
    Except JsError (List (Option DriverRecord)) :=
  match parseDriverLines (jsSplitChar '\n' stdout) with
  | .error e => .error e
  | .ok drivers =>
    match slugs? with
    | none => .ok (drivers.map some)
    | some slugs =>
      let items := slugs.map (slugHits ff drivers)
      if items = [] then .ok []
      else .ok ((jsUniq (flattenJs items)).take maxsize)

/-- A discovery line is harmless when its URI token (second
space-delimited token) is either ignored or percent-decodable; a line
with no second token decodes the string `"undefined"`, which always
succeeds. -/
def lineOk (item : String) : Bool :=
  match (jsSplitChar ' ' item)[1]? with
  | some t => decide (t ∈ IGNORED_DEVICES) || (decodeURIComponentJs t).isSome
  | none => true

/-! ## Helper lemmas -/

theorem splitCharList_ne_nil (c : Char) (l : List Char) : splitCharList c l ≠ [] := by
  cases l with
  | nil => simp [splitCharList]
  | cons x xs =>
    simp only [splitCharList]
    split
    · simp
    · split <;> simp

theorem splitOnPred_ne_nil (p : Char → Bool) (l : List Char) : splitOnPred p l ≠ [] := by
  cases l with
  | nil => simp [splitOnPred]
  | cons x xs =>
    simp only [splitOnPred]
    split
    · simp
    · split <;> simp

theorem exists_cons_of_length_succ {α : Type} (l : List α) (n : Nat)
    (h : l.length = n + 1) : ∃ a t, l = a :: t ∧ t.length = n := by
  cases l with
  | nil => simp at h
  | cons a t => exact ⟨a, t, rfl, by simpa using h⟩

/-- A list whose split contains the separator has at least two segments. -/
theorem splitCharList_length_two (c : Char) (l : List Char) (h : c ∈ l) :
    2 ≤ (splitCharList c l).length := by
  induction l with
  | nil => simp at h
  | cons x xs ih =>
    simp only [splitCharList]
    by_cases hx : x = c
    · simp only [if_pos hx, List.length_cons]
      have := splitCharList_ne_nil c xs
      have : 1 ≤ (splitCharList c xs).length := by
        cases hmm : splitCharList c xs with
        | nil => exact absurd hmm this
        | cons a t => simp
      omega
    · have hc : c ∈ xs := by
        rcases List.mem_cons.mp h with h1 | h1
        · exact absurd h1.symm hx
        · exact h1
      simp only [if_neg hx]
      cases hmm : splitCharList c xs with
      | nil => exact absurd hmm (splitCharList_ne_nil c xs)
      | cons a t =>
        have := ih hc
        rw [hmm] at this
        simpa using this

theorem get1_of_length_two {α : Type} (l : List α) (h : 2 ≤ l.length) :
    ∃ y, l[1]? = some y := by
  cases l with
  | nil => simp at h
  | cons a t =>
    cases t with
    | nil => simp at h
    | cons b t2 => exact ⟨b, by simp⟩

/-! Round trip of `split(' ')` / `join(' ')`. -/

def joinListChar (c : Char) : List (List Char) → List Char
  | [] => []
  | [x] => x
  | x :: y :: t => x ++ c :: joinListChar c (y :: t)

theorem joinListChar_splitCharList (c : Char) (l : List Char) :
    joinListChar c (splitCharList c l) = l := by
  induction l with
  | nil => simp [splitCharList, joinListChar]
  | cons x xs ih =>
    simp only [splitCharList]
    by_cases hx : x = c
    · subst hx
      simp only [if_pos rfl]
      cases hmm : splitCharList x xs with
      | nil => exact absurd hmm (splitCharList_ne_nil x xs)
      | cons a t =>
        rw [hmm] at ih
        simp [joinListChar, ih]
    · simp only [if_neg hx]
      cases hmm : splitCharList c xs with
      | nil => exact absurd hmm (splitCharList_ne_nil c xs)
      | cons a t =>
        rw [hmm] at ih
        cases t with
        | nil => simp_all [joinListChar]
        | cons b t2 => simp_all [joinListChar]

theorem string_mk_append (a b : List Char) :
    String.mk a ++ String.mk b = String.mk (a ++ b) := rfl

theorem jsJoin_map_mk (c : Char) (ll : List (List Char)) :
    jsJoin (String.mk [c]) (ll.map String.mk) = String.mk (joinListChar c ll) := by
  induction ll with
  | nil => rfl
  | cons x t ih =>
    cases t with
    | nil => rfl
    | cons y t2 =>
      simp only [List.map_cons] at ih ⊢
      rw [jsJoin, ih, joinListChar, string_mk_append, string_mk_append]
      simp

theorem jsJoin_jsSplitChar (s : String) : jsJoin " " (jsSplitChar ' ' s) = s := by
  have h1 : (" " : String) = String.mk [' '] := rfl
  rw [jsSplitChar, h1, jsJoin_map_mk, joinListChar_splitCharList]

/-! Absence of `://` is preserved by prefixes and by line-splitting. -/

theorem startsCSS_append (l suffix : List Char) (h : startsCSS l = true) :
    startsCSS (l ++ suffix) = true := by
  rcases l with _ | ⟨c1, _ | ⟨c2, _ | ⟨c3, w⟩⟩⟩ <;> simp_all [startsCSS]

theorem lastCSS_cons_none (c : Char) (l : List Char) (h : lastCSS (c :: l) = none) :
    lastCSS l = none := by
  revert h
  simp only [lastCSS]
  cases lastCSS l with
  | none => intro _; rfl
  | some i => intro h; simp at h

theorem lastCSS_append_none (l suffix : List Char)
    (h : lastCSS (l ++ suffix) = none) : lastCSS l = none := by
  induction l with
  | nil => rfl
  | cons c l2 ih =>
    have hcons : lastCSS (c :: (l2 ++ suffix)) = none := by simpa using h
    have hrest : lastCSS (l2 ++ suffix) = none := lastCSS_cons_none c _ hcons
    have h2 : lastCSS l2 = none := ih hrest
    simp only [lastCSS, h2]
    cases hss : startsCSS (c :: l2) with
    | false => simp
    | true =>
      exfalso
      have htrue : startsCSS (c :: (l2 ++ suffix)) = true := by
        have := startsCSS_append (c :: l2) suffix hss
        simpa using this
      simp only [lastCSS, hrest, htrue, if_true] at hcons
      simp at hcons

/-- The first segment produced by `splitOnPred` is a prefix of the input. -/
theorem splitOnPred_head_pre (p : Char → Bool) (l : List Char) (h0 : List Char)
    (t : List (List Char)) (h : splitOnPred p l = h0 :: t) : ∃ s, h0 ++ s = l := by
  induction l generalizing h0 t with
  | nil =>
    simp only [splitOnPred] at h
    injection h with ha hb
    exact ⟨[], by simp [← ha]⟩
  | cons x xs ih =>
    simp only [splitOnPred] at h
    by_cases hx : p x
    · rw [if_pos hx] at h
      injection h with ha hb
      exact ⟨x :: xs, by simp [← ha]⟩
    · rw [if_neg hx] at h
      cases hmm : splitOnPred p xs with
      | nil => exact absurd hmm (splitOnPred_ne_nil p xs)
      | cons a t2 =>
        rw [hmm] at h
        injection h with ha hb
        obtain ⟨s, hs⟩ := ih a t2 hmm
        refine ⟨s, ?_⟩
        rw [← ha]
        simp [hs]

theorem splitOnPred_lastCSS_none (p : Char → Bool) (l : List Char)
    (h : lastCSS l = none) : ∀ seg ∈ splitOnPred p l, lastCSS seg = none := by
  induction l with
  | nil =>
    intro seg hseg
    simp [splitOnPred] at hseg
    simp [hseg, lastCSS]
  | cons c l2 ih =>
    have h2 : lastCSS l2 = none := lastCSS_cons_none c l2 h
    intro seg hseg
    simp only [splitOnPred] at hseg
    by_cases hc : p c
    · rw [if_pos hc] at hseg
      rcases List.mem_cons.mp hseg with h1 | h1
      · simp [h1, lastCSS]
      · exact ih h2 seg h1
    · rw [if_neg hc] at hseg
      cases hmm : splitOnPred p l2 with
      | nil => exact absurd hmm (splitOnPred_ne_nil p l2)
      | cons a t2 =>
        rw [hmm] at hseg
        rcases List.mem_cons.mp hseg with h1 | h1
        · subst h1
          obtain ⟨s, hs⟩ := splitOnPred_head_pre p l2 a t2 hmm
          have : lastCSS ((c :: a) ++ s) = none := by
            rw [List.cons_append, hs]
            exact h
          exact lastCSS_append_none _ _ this
        · exact ih h2 seg (hmm ▸ List.mem_cons_of_mem a h1)

theorem findSome?_none {α β : Type} (f : α → Option β) (l : List α)
    (h : ∀ a ∈ l, f a = none) : l.findSome? f = none := by
  induction l with
  | nil => rfl
  | cons x xs ih =>
    rw [List.findSome?_cons]
    rw [h x (List.mem_cons_self x xs)]
    exact ih (fun a ha => h a (List.mem_cons_of_mem x ha))

/-- When the decoded URI contains no `://` at all, the scheme regex
cannot match. -/
theorem rxTypeExec_none (s : String) (h : lastCSS s.data = none) :
    rxTypeExec s = none := by
  rw [rxTypeExec]
  rw [findSome?_none]
  · rfl
  · intro seg hseg
    have hn : lastCSS seg = none := splitOnPred_lastCSS_none isLT s.data h seg hseg
    cases seg with
    | nil => rfl
    | cons c rest =>
      simp only [segSchemeMatch, hn]
      split <;> rfl

/-! Membership through dedup, flatten and take. -/

theorem mem_jsUniqAux {α : Type} [DecidableEq α] (l : List α) :
    ∀ (seen : List α) (x : α), x ∈ jsUniqAux seen l → x ∈ l := by
  induction l with
  | nil => intro seen x h; simp [jsUniqAux] at h
  | cons a t ih =>
    intro seen x h
    simp only [jsUniqAux] at h
    by_cases ha : a ∈ seen
    · rw [if_pos ha] at h
      exact List.mem_cons_of_mem a (ih seen x h)
    · rw [if_neg ha] at h
      rcases List.mem_cons.mp h with h1 | h1
      · exact h1 ▸ List.mem_cons_self a t
      · exact List.mem_cons_of_mem a (ih (a :: seen) x h1)

theorem mem_jsUniq {α : Type} [DecidableEq α] (l : List α) (x : α)
    (h : x ∈ jsUniq l) : x ∈ l := mem_jsUniqAux l [] x h

theorem mem_flattenJs (items : List (Option (List DriverRecord)))
    (x : Option DriverRecord) (h : x ∈ flattenJs items) :
    ∃ it ∈ items, (it = none ∧ x = none) ∨
      ∃ hits, it = some hits ∧ ∃ r, x = some r ∧ r ∈ hits := by
  induction items with
  | nil => simp [flattenJs] at h
  | cons it rest ih =>
    cases it with
    | none =>
      simp only [flattenJs] at h
      rcases List.mem_cons.mp h with h1 | h1
      · exact ⟨none, List.mem_cons_self _ _, Or.inl ⟨rfl, h1⟩⟩
      · obtain ⟨it2, hm, hc⟩ := ih h1
        exact ⟨it2, List.mem_cons_of_mem _ hm, hc⟩
    | some hits =>
      simp only [flattenJs] at h
      rcases List.mem_append.mp h with h1 | h1
      · obtain ⟨r, hr, hrx⟩ := List.mem_map.mp h1
        exact ⟨some hits, List.mem_cons_self _ _,
          Or.inr ⟨hits, rfl, r, hrx.symm, hr⟩⟩
      · obtain ⟨it2, hm, hc⟩ := ih h1
        exact ⟨it2, List.mem_cons_of_mem _ hm, hc⟩

/-! Except helpers. -/

theorem mapExcept_error {α β : Type} (f : α → Except JsError β) (E : JsError)
    (hall : ∀ x, f x = .error E ∨ ∃ y, f x = .ok y) :
    ∀ (xs : List α) (l : α), l ∈ xs → f l = .error E →
      mapExcept f xs = .error E := by
  intro xs
  induction xs with
  | nil => intro l h; simp at h
  | cons x rest ih =>
    intro l hmem hl
    simp only [mapExcept]
    rcases hall x with hx | ⟨y, hy⟩
    · rw [hx]
    · rw [hy]
      rcases List.mem_cons.mp hmem with h1 | h1
      · subst h1
        rw [hl] at hy
        simp at hy
      · rw [ih l h1 hl]

theorem foldExcept_ok {σ α : Type} (f : σ → α → Except JsError σ) (xs : List α)
    (hall : ∀ x ∈ xs, ∀ s, ∃ s2, f s x = .ok s2) :
    ∀ s, ∃ m, foldExcept f s xs = .ok m := by
  induction xs with
  | nil => intro s; exact ⟨s, rfl⟩
  | cons x rest ih =>
    intro s
    obtain ⟨s2, hs2⟩ := hall x (List.mem_cons_self x rest) s
    obtain ⟨m, hm⟩ := ih (fun a ha s3 => hall a (List.mem_cons_of_mem x ha) s3) s2
    exact ⟨m, by simp only [foldExcept, hs2]; exact hm⟩

/-! Field and group parsing. -/

theorem eqField_ok (l : String) (h : '=' ∈ l.data) : ∃ v, eqField l = .ok v := by
  have h2 : 2 ≤ (jsSplitChar '=' l).length := by
    rw [jsSplitChar, List.length_map]
    exact splitCharList_length_two '=' l.data h
  obtain ⟨y, hy⟩ := get1_of_length_two _ h2
  exact ⟨jsTrim y, by simp [eqField, hy]⟩

theorem parseDriverGroup_ok (a b c d : String)
    (ha : '=' ∈ a.data) (hb : '=' ∈ b.data) (hc : '=' ∈ c.data) (hd : '=' ∈ d.data) :
    ∃ dr, parseDriverGroup a b c d = .ok dr := by
  obtain ⟨va, hva⟩ := eqField_ok a ha
  obtain ⟨vb, hvb⟩ := eqField_ok b hb
  obtain ⟨vc, hvc⟩ := eqField_ok c hc
  obtain ⟨vd, hvd⟩ := eqField_ok d hd
  refine ⟨{ driver := va, lang := vb, makeAndModel := vc, id := vd }, ?_⟩
  simp [parseDriverGroup, hva, hvb, hvc, hvd]

/-- Every failure of `parseLine` is the `TypeError` of `undefined.trim()`. -/
theorem parseLine_cases (defaults line : String) :
    parseLine defaults line = .error .typeError ∨
      ∃ r, parseLine defaults line = .ok r := by
  rw [parseLine]
  cases firstColonSplit line with
  | none => exact Or.inl rfl
  | some p => exact Or.inr ⟨_, rfl⟩

/-- A line with no colon at all has no capture group. -/
theorem firstColonSplit_none (line : String) (h : ¬ ':' ∈ line.data) :
    firstColonSplit line = none := by
  rw [firstColonSplit]
  suffices hs : firstColonSplitList line.data = none by rw [hs]; rfl
  generalize line.data = l at h
  induction l with
  | nil => rfl
  | cons c rest ih =>
    have hc : ¬ (c = ':') := fun he => h (he ▸ List.mem_cons_self c rest)
    have hrest : ¬ ':' ∈ rest := fun he => h (List.mem_cons_of_mem c he)
    rw [firstColonSplitList.eq_def]
    split
    · rfl
    · rename_i heq
      injection heq with h1 h2
      exact absurd h1 hc
    · rename_i hnot heqlist
      injection heqlist with h1 h2
      subst h1
      subst h2
      rw [ih hrest]
      rfl

/-! Classification and discovery totality helpers. -/

theorem classifyUri_ok (type? : Option String)
    (h : (decodeURIComponentJs (type?.getD "undefined")).isSome = true) :
    ∃ dev, classifyUri type? = .ok dev := by
  rw [classifyUri]
  cases hd : decodeURIComponentJs (type?.getD "undefined") with
  | none => rw [hd] at h; simp at h
  | some d => exact ⟨_, rfl⟩

theorem processItem_ok (item : String) (h : lineOk item = true) :
    ∀ acc, ∃ acc2, processItem acc item = .ok acc2 := by
  intro acc
  rw [processItem]
  cases hi : isIgnoredTok (jsSplitChar ' ' item)[1]? with
  | true => exact ⟨acc, by rw [if_pos rfl]⟩
  | false =>
    rw [if_neg (by simp [hi])]
    have hdec : (decodeURIComponentJs (((jsSplitChar ' ' item)[1]?).getD "undefined")).isSome = true := by
      rw [lineOk] at h
      cases ht : (jsSplitChar ' ' item)[1]? with
      | none => decide
      | some t =>
        rw [ht] at h hi
        rw [isIgnoredTok] at hi
        simp only [hi] at h
        simp only [Bool.false_or] at h
        simpa using h
    obtain ⟨dev, hdev⟩ := classifyUri_ok _ hdec
    rw [hdev]
    exact ⟨_, rfl⟩

/-! Window descent and catalog counting. -/

theorem windowDescent_full (ff : String → List DriverRecord → List DriverRecord)
    (drivers : List DriverRecord) (tokens : List String) (n : Nat)
    (hne : ff (jsJoin " " (tokens.take (n + 1))) drivers ≠ []) :
    windowDescent ff drivers tokens (n + 1) =
      some (ff (jsJoin " " (tokens.take (n + 1))) drivers) := by
  rw [windowDescent]
  simp only [if_neg hne]

theorem jsSplitChar_ne_nil (c : Char) (s : String) : jsSplitChar c s ≠ [] := by
  rw [jsSplitChar]
  intro h
  exact splitCharList_ne_nil c s.data (List.map_eq_nil_iff.mp h)

/-- Exactly `4k` lines feed `k - 1` complete groups through the
`length > 4` loop (the last group falls at the loop bound). -/
theorem parseDriverLines_four_k (k : Nat) :
    ∀ (lines : List String), lines.length = 4 * k →
      (∀ l ∈ lines, '=' ∈ l.data) →
      ∃ ds, parseDriverLines lines = .ok ds ∧ ds.length = k - 1 := by
  induction k with
  | zero =>
    intro lines hlen _
    have : lines = [] := List.length_eq_zero.mp (by simpa using hlen)
    subst this
    exact ⟨[], rfl, rfl⟩
  | succ k ih =>
    intro lines hlen hall
    obtain ⟨a, t1, rfl, hl1⟩ := exists_cons_of_length_succ lines (4 * k + 3) (by omega)
    obtain ⟨b, t2, rfl, hl2⟩ := exists_cons_of_length_succ t1 (4 * k + 2) (by omega)
    obtain ⟨c, t3, rfl, hl3⟩ := exists_cons_of_length_succ t2 (4 * k + 1) (by omega)
    obtain ⟨d, t4, rfl, hl4⟩ := exists_cons_of_length_succ t3 (4 * k) (by omega)
    cases k with
    | zero =>
      have : t4 = [] := List.length_eq_zero.mp (by simpa using hl4)
      subst this
      exact ⟨[], rfl, rfl⟩
    | succ k2 =>
      obtain ⟨e, t5, rfl, hl5⟩ := exists_cons_of_length_succ t4 (4 * k2 + 3) (by omega)
      obtain ⟨dr, hdr⟩ := parseDriverGroup_ok a b c d
        (hall a (by simp)) (hall b (by simp)) (hall c (by simp)) (hall d (by simp))
      obtain ⟨ds, hds, hlen2⟩ := ih (e :: t5) (by simp [hl5]; omega)
        (fun l hmem => hall l (by simp [hmem]))
      refine ⟨dr :: ds, ?_, ?_⟩
      · rw [parseDriverLines, hdr, hds]
      · simp [hlen2]

/-! ## Claim theorems -/

/-- C1 (counterexample): the discovery line
`"socket socket://192.168.1.5:9100"` is NOT dropped — the ignore test is
applied to the second space-delimited token (the URI), which is not in
the ignore set, so `discover` returns an entry under key `"socket"`,
contradicting the claim that a line whose first token is in the ignore
set produces no entry. -/
theorem discover_socket_line_kept :
    discoverModel "socket socket://192.168.1.5:9100" =
      .ok [("socket",
        [{ uri := some "socket://192.168.1.5:9100",
           uri_pretty := "socket://192.168.1.5:9100",
           protocol := "socket",
           model := "unknown" }])] := rfl

/-- C1 (amended): a discovery line is discarded (the accumulated mapping
is returned unchanged, so no `InstallableDevice` is derived from it)
exactly when its SECOND space-delimited token — the URI token, not the
backend token — is a member of the fixed ignore set. -/
theorem discover_ignores_second_token (acc : List (String × List InstallablePrinter))
    (item t : String) (h1 : (jsSplitChar ' ' item)[1]? = some t)
    (h2 : t ∈ IGNORED_DEVICES) : processItem acc item = .ok acc := by
  have hig : isIgnoredTok (some t) = true := by
    simp [isIgnoredTok, h2]
  simp only [processItem, h1, hig, if_true]

/-- C1 witness: the line `"network socket"` (second token `socket` in the
ignore set) is discarded by `processItem`. -/
theorem discover_ignores_second_token_witness :
    ((jsSplitChar ' ' "network socket")[1]? = some "socket") ∧
      ("socket" ∈ IGNORED_DEVICES) ∧
      processItem [] "network socket" = .ok [] :=
  ⟨by decide, by decide,
    discover_ignores_second_token [] "network socket" "socket" (by decide) (by decide)⟩

/-- C2 (counterexample): an input of exactly four (= 4·1) `label=value`
lines yields zero DriverRecords, not one — the `while (lines.length > 4)`
loop never runs on exactly four lines. -/
theorem findDrivers_four_lines_counterexample :
    (jsSplitChar '\n' "a=1\nb=2\nc=3\nd=4").length = 4 ∧
      findDriversModel fuzzyFilter "a=1\nb=2\nc=3\nd=4" none 10 = .ok [] :=
  ⟨rfl, rfl⟩

/-- C2 (amended): the Driver Catalog Reader consumes its line sequence
four lines at a time while MORE than four lines remain, so an input of
exactly `4k` well-formed `label=value` lines yields exactly `k - 1`
DriverRecords in catalog order; the final complete group is discarded
together with any remainder. -/
theorem driverCatalog_four_k_lines (lines : List String) (k : Nat)
    (hlen : lines.length = 4 * k) (hall : ∀ l ∈ lines, '=' ∈ l.data) :
    ∃ ds, parseDriverLines lines = .ok ds ∧ ds.length = k - 1 :=
  parseDriverLines_four_k k lines hlen hall

/-- C2 witness: four concrete `label=value` lines (k = 1) produce zero
records. -/
theorem driverCatalog_four_k_lines_witness :
    (["a=1", "b=2", "c=3", "d=4"].length = 4 * 1) ∧
      ∃ ds, parseDriverLines ["a=1", "b=2", "c=3", "d=4"] = .ok ds ∧ ds.length = 1 - 1 :=
  ⟨by decide, driverCatalog_four_k_lines ["a=1", "b=2", "c=3", "d=4"] 1 (by decide) (by decide)⟩

/-- C3 (counterexample): a rejected command invocation (the promise of
`exec('lpstat -s')` failing) propagates out of `list()` and `get()` as an
error — it is not converted into an empty sequence. -/
theorem list_rejected_counterexample :
    listModel .rejected = .error .execError ∧
      getModel .rejected none = .error .execError := ⟨rfl, rfl⟩

/-- C3 (amended): only a RESOLVED command outcome that reported stderr
text or produced no stdout is converted into the empty printer sequence
by `list()`/`get()`; a rejected invocation propagates as an exception. -/
theorem list_soft_failure (out err : String) (name? : Option String)
    (h : err ≠ "" ∨ out = "") :
    listModel (.resolved out err) = .ok [] ∧
      getModel (.resolved out err) name? = .ok none := by
  have hraw : listRaw (.resolved out err) = .ok [] := by
    simp only [listRaw]
    rw [if_pos h]
  constructor
  · simp [listModel, hraw]
  · simp [getModel, hraw]

/-- C3 witness: a resolved command with stderr text yields the empty
sequence. -/
theorem list_soft_failure_witness :
    (("boom" : String) ≠ "" ∨ ("x" : String) = "") ∧
      listModel (.resolved "x" "boom") = .ok [] ∧
      getModel (.resolved "x" "boom") none = .ok none :=
  ⟨Or.inl (by decide), list_soft_failure "x" "boom" none (Or.inl (by decide))⟩

/-- C4 (counterexample): two malformed URI tokens without `://` where the
claim fails on the code: `"%"` raises a URIError (decode failure is not
absorbed) and `"//x._y"` classifies with `model = "x"`, not
`"unknown"` (the network pattern still fires without a scheme). -/
theorem classify_malformed_counterexample :
    classifyUri (some "%") = .error .uriError ∧
      classifyUri (some "//x._y") =
        .ok { uri := some "//x._y", uri_pretty := "//x._y",
              protocol := "", model := "x" } := ⟨rfl, rfl⟩

/-- C4 (amended): for every device URI token whose percent-decoding
succeeds, whose decoded text contains no `://`, and on which the network
pattern `//...._` finds no match, the classifier yields the empty scheme
(the spec's `unknown` classification) and `model = "unknown"` without
raising; tokens that fail to percent-decode raise instead. -/
theorem classify_no_scheme (token d : String)
    (hdec : decodeURIComponentJs token = some d)
    (hsep : lastCSS d.data = none)
    (hnet : rxNetExec d = none) :
    classifyUri (some token) =
      .ok { uri := some token, uri_pretty := d, protocol := "", model := "unknown" } := by
  have ht := rxTypeExec_none d hsep
  simp only [classifyUri, Option.getD_some, hdec, ht, hnet]
  rw [if_neg (by decide : ¬ ("" : String) = "usb")]

/-- C4 witness: the separator-free token `"foo"` classifies to the empty
scheme with model `"unknown"`. -/
theorem classify_no_scheme_witness :
    decodeURIComponentJs "foo" = some "foo" ∧
      lastCSS "foo".data = none ∧ rxNetExec "foo" = none ∧
      classifyUri (some "foo") =
        .ok { uri := some "foo", uri_pretty := "foo", protocol := "", model := "unknown" } :=
  ⟨by decide, by decide, by decide,
    classify_no_scheme "foo" "foo" (by decide) (by decide) (by decide)⟩

/-- C5 (counterexample): on the claimed status text, `list()` yields one
record with name `"..."` (the suffix after the LAST space of the text
before the first colon), connection as claimed, and `isDefault = false`
(`"..." ≠ "HP_LaserJet"`), not the claimed
`{name := "HP_LaserJet", isDefault := true}`. -/
theorem list_scenario_counterexample :
    listModel (.resolved "system default destination: HP_LaserJet\nprinter HP_LaserJet is idle.  enabled since ...: ipp://host/printers/HP_LaserJet\n" "") =
      .ok [Printer.mk
        { name := "...",
          connection := "ipp://host/printers/HP_LaserJet", isDefault := false }] ∧
    listModel (.resolved "system default destination: HP_LaserJet\nprinter HP_LaserJet is idle.  enabled since ...: ipp://host/printers/HP_LaserJet\n" "") ≠
      .ok [Printer.mk
        { name := "HP_LaserJet",
          connection := "ipp://host/printers/HP_LaserJet", isDefault := true }] :=
  ⟨rfl, by decide⟩

/-- C5 (amended): on the scenario status text, `list()` yields exactly
one PrinterRecord whose name is `"..."` — the substring after the last
space of the label part — with connection
`"ipp://host/printers/HP_LaserJet"` and `isDefault = false`, because the
extracted name does not equal the default name `"HP_LaserJet"`. -/
theorem list_scenario_amended :
    listModel (.resolved "system default destination: HP_LaserJet\nprinter HP_LaserJet is idle.  enabled since ...: ipp://host/printers/HP_LaserJet\n" "") =
      .ok [Printer.mk
        { name := "...",
          connection := "ipp://host/printers/HP_LaserJet", isDefault := false }] := rfl

/-- C6 (counterexample): one discovery line whose URI token is the
undecodable `"%"` makes the whole `discover()` call raise a URIError —
the malformed line is not absorbed and no mapping is returned. -/
theorem discover_percent_counterexample :
    discoverModel "a %" = .error .uriError := rfl

/-- C6 (amended): `discover()` absorbs every malformed line EXCEPT those
whose URI token fails percent-decoding: whenever every processed line is
either ignored or has a decodable URI token, `discover()` returns a
mapping (unparsable schemes and unmatched patterns degrade to "unknown"
and never raise). -/
theorem discover_total_of_decodable (stdout : String)
    (h : ∀ item ∈ processedLines stdout, lineOk item = true) :
    ∃ m, discoverModel stdout = .ok m := by
  simp only [discoverModel]
  exact foldExcept_ok processItem (processedLines stdout)
    (fun item hm s => processItem_ok item (h item hm) s) []

/-- C6 witness: a discovery text with a decodable percent-escape is fully
processed. -/
theorem discover_total_of_decodable_witness :
    (∀ item ∈ processedLines "dnssd dnssd://x%20y._pdl._tcp", lineOk item = true) ∧
      ∃ m, discoverModel "dnssd dnssd://x%20y._pdl._tcp" = .ok m :=
  ⟨by decide, discover_total_of_decodable "dnssd dnssd://x%20y._pdl._tcp" (by decide)⟩

/-- C7 (counterexample): a slug with no fuzzy hit does NOT contribute
nothing — its `undefined` survives `_.flatten`/`_.union` and occupies a
slot of the returned sequence: with an empty catalog and slug `"x"`,
`findDrivers` returns `[undefined]`, not `[]`. -/
theorem findDrivers_failed_slug_counterexample :
    findDriversModel fuzzyFilter "" (some ["x"]) 10 = .ok [none] := rfl

/-- C7 (amended): every element of the combined, deduplicated, capped
result is either the `undefined` placeholder contributed by a slug whose
matching failed, or a DriverRecord drawn from the hit list of a slug
whose matching succeeded. -/
theorem findDrivers_elements (ff : String → List DriverRecord → List DriverRecord)
    (stdout : String) (slugs : List String) (maxsize : Nat)
    (ds : List (Option DriverRecord))
    (h : findDriversModel ff stdout (some slugs) maxsize = .ok ds) :
    ∃ drivers, parseDriverLines (jsSplitChar '\n' stdout) = .ok drivers ∧
      ∀ x ∈ ds, (x = none ∧ ∃ slug ∈ slugs, slugHits ff drivers slug = none) ∨
        ∃ r, x = some r ∧ ∃ slug ∈ slugs, ∃ hits,
          slugHits ff drivers slug = some hits ∧ r ∈ hits := by
  simp only [findDriversModel] at h
  cases hp : parseDriverLines (jsSplitChar '\n' stdout) with
  | error e => rw [hp] at h; simp at h
  | ok drivers =>
    rw [hp] at h
    simp only [] at h
    refine ⟨drivers, rfl, ?_⟩
    by_cases hi : slugs.map (slugHits ff drivers) = []
    · rw [if_pos hi] at h
      injection h with h2
      subst h2
      simp
    · rw [if_neg hi] at h
      injection h with h2
      subst h2
      intro x hx
      have hx2 : x ∈ jsUniq (flattenJs (slugs.map (slugHits ff drivers))) :=
        List.take_subset _ _ hx
      have hx3 := mem_jsUniq _ _ hx2
      obtain ⟨it, hitmem, hc⟩ := mem_flattenJs _ _ hx3
      obtain ⟨slug, hslug, hit⟩ := List.mem_map.mp hitmem
      rcases hc with ⟨hnone, hxnone⟩ | ⟨hits, hsome, r, hxr, hrhits⟩
      · exact Or.inl ⟨hxnone, slug, hslug, by rw [hit, hnone]⟩
      · exact Or.inr ⟨r, hxr, slug, hslug, hits, by rw [hit, hsome], hrhits⟩

/-- C7 witness: on the empty catalog with slug `"x"`, the only returned
element is the failed-slug placeholder. -/
theorem findDrivers_elements_witness :
    ∃ drivers, parseDriverLines (jsSplitChar '\n' "") = .ok drivers ∧
      ∀ x ∈ [(none : Option DriverRecord)],
        (x = none ∧ ∃ slug ∈ ["x"], slugHits fuzzyFilter drivers slug = none) ∨
        ∃ r, x = some r ∧ ∃ slug ∈ ["x"], ∃ hits,
          slugHits fuzzyFilter drivers slug = some hits ∧ r ∈ hits :=
  findDrivers_elements fuzzyFilter "" ["x"] 10 [none] rfl

/-- C8 (confirmed): when the full token window of a slug (all its tokens
joined back, i.e. the slug itself) produces at least one hit, the
per-slug result is exactly that full-window hit list in the matcher's
ranking order — the descent stops at the first (largest) window and no
shorter window is consulted. -/
theorem slugHits_full_window (ff : String → List DriverRecord → List DriverRecord)
    (drivers : List DriverRecord) (slug : String)
    (h : ff slug drivers ≠ []) :
    slugHits ff drivers slug = some (ff slug drivers) := by
  have hjoin0 : jsJoin " " (jsSplitChar ' ' slug) = slug := jsJoin_jsSplitChar slug
  rw [slugHits]
  cases ht : jsSplitChar ' ' slug with
  | nil => exact absurd ht (jsSplitChar_ne_nil ' ' slug)
  | cons t0 ts =>
    rw [ht] at hjoin0
    show windowDescent ff drivers (t0 :: ts) (ts.length + 1) = some (ff slug drivers)
    rw [windowDescent]
    have hfull : (t0 :: ts).take (ts.length + 1) = t0 :: ts := by
      have : (ts.length + 1) = (t0 :: ts).length := by simp
      rw [this, List.take_length]
    rw [hfull, hjoin0]
    simp only [if_neg h]

/-- C8 witness: spec scenario 4 — slug `"Brother HL-5270DN"` fully
matches the catalog entry `"Brother HL-5270DN series"`, and the per-slug
result is exactly the full-window match list. -/
theorem slugHits_full_window_witness :
    fuzzyFilter "Brother HL-5270DN"
        [{ driver := "drv", lang := "en",
           makeAndModel := "Brother HL-5270DN series", id := "i" }] ≠ [] ∧
      slugHits fuzzyFilter
        [{ driver := "drv", lang := "en",
           makeAndModel := "Brother HL-5270DN series", id := "i" }]
        "Brother HL-5270DN" =
        some (fuzzyFilter "Brother HL-5270DN"
          [{ driver := "drv", lang := "en",
             makeAndModel := "Brother HL-5270DN series", id := "i" }]) :=
  ⟨by decide,
    slugHits_full_window fuzzyFilter
      [{ driver := "drv", lang := "en",
         makeAndModel := "Brother HL-5270DN series", id := "i" }]
      "Brother HL-5270DN" (by decide)⟩

/-- C9 (confirmed): with slugs supplied, the sequence returned by
`findDrivers` never exceeds `maxsize` elements, whatever the matcher, the
catalog text and the accumulated hits. -/
theorem findDrivers_capped (ff : String → List DriverRecord → List DriverRecord)
    (stdout : String) (slugs : List String) (maxsize : Nat)
    (ds : List (Option DriverRecord))
    (h : findDriversModel ff stdout (some slugs) maxsize = .ok ds) :
    ds.length ≤ maxsize := by
  simp only [findDriversModel] at h
  cases hp : parseDriverLines (jsSplitChar '\n' stdout) with
  | error e => rw [hp] at h; simp at h
  | ok drivers =>
    rw [hp] at h
    simp only [] at h
    by_cases hi : slugs.map (slugHits ff drivers) = []
    · rw [if_pos hi] at h
      injection h with h2
      subst h2
      simp
    · rw [if_neg hi] at h
      injection h with h2
      subst h2
      exact List.length_take_le _ _

/-- C9 witness: the cap holds on a concrete call (empty catalog, one
slug, default cap 10). -/
theorem findDrivers_capped_witness :
    findDriversModel fuzzyFilter "" (some ["x"]) 10 = .ok [none] ∧
      [(none : Option DriverRecord)].length ≤ 10 :=
  ⟨rfl, findDrivers_capped fuzzyFilter "" ["x"] 10 [none] rfl⟩

/-- C10 (confirmed): the status-line parse assumes a colon on every
retained line after the first: if such a line has no `:`, the
`parts[1].trim()` call throws, and `list()`/`get()` fail with a
TypeError instead of returning records. -/
theorem list_no_colon_typeError (out l : String) (name? : Option String)
    (hmem : l ∈ ((splitLinesJs out).filter (fun s => s ≠ "")).drop 1)
    (hnc : ¬ ':' ∈ l.data) (hout : out ≠ "") :
    listModel (.resolved out "") = .error .typeError ∧
      getModel (.resolved out "") name? = .error .typeError := by
  have hraw : listRaw (.resolved out "") = .error .typeError := by
    simp only [listRaw]
    rw [if_neg (by simp [hout])]
    simp only [parseListing]
    cases hls : (splitLinesJs out).filter (fun s => s ≠ "") with
    | nil => rw [hls] at hmem
    | cons first rest =>
      rw [hls] at hmem
      simp only [List.drop_succ_cons, List.drop_zero] at hmem
      have hline : parseLine (jsTrim ((jsSplitChar ':' first)[1]?.getD "")) l =
          .error .typeError := by
        simp only [parseLine, firstColonSplit_none l hnc]
      exact mapExcept_error _ _ (fun x => parseLine_cases _ x) rest l hmem hline
  constructor
  · simp [listModel, hraw]
  · simp [getModel, hraw]

/-- C10 witness: a second status line with no colon makes the listing
fail with a TypeError. -/
theorem list_no_colon_typeError_witness :
    ("no colon here" ∈ ((splitLinesJs "d: X\nno colon here").filter (fun s => s ≠ "")).drop 1) ∧
      listModel (.resolved "d: X\nno colon here" "") = .error .typeError ∧
      getModel (.resolved "d: X\nno colon here" "") none = .error .typeError :=
  ⟨by decide,
    list_no_colon_typeError "d: X\nno colon here" "no colon here" none
      (by decide) (by decide) (by decide)⟩
